import Mathlib

/-!
Verification of the expense-ledger core of the Budget Tracker web app
(`expense.py`, `budget.py`, `analytics.py`).

Shallow embedding conventions:
* Python `float` amounts are modelled as `Rat`.  The CSV layer writes
  `str(amount)` and reads it back with `float(...)`, which round-trips
  exactly, so serialization of the amount is modelled as the identity.
* Python strings are modelled as `List Char` (`Str` below), so that all
  string operations compute by kernel reduction; `str.lower`,
  `str.strip` and `str.startswith` become `lowerStr`, `strip` and
  `List.isPrefixOf` (ASCII case mapping, which covers every string the
  program compares case-insensitively).
* `uuid.uuid4()` and `datetime.today()` are effects; they enter the
  embedding as explicit parameters (`fresh`, `today`).
* Python's `round` (banker's rounding) is modelled with Mathlib's
  `round`; the two agree except on exact ties, and every theorem below
  only uses the bound `|x - round x| <= 1/2`, valid for both.
* A `Budget` object owns an in-memory list and a CSV file; the pair is
  the `Store` state, and each method is a function `Store -> Store × α`.
-/

namespace BudgetTracker

/-- A Python string, as a list of characters. -/
abbrev Str := List Char

/-- ASCII lower-casing of one character (`str.lower` restricted to
ASCII, which covers the program's category comparisons). -/
def lowerChar (c : Char) : Char :=
  if 'A' ≤ c ∧ c ≤ 'Z' then Char.ofNat (c.toNat + 32) else c

/-- Embeds `str.lower`. -/
def lowerStr (s : Str) : Str := s.map lowerChar

/-- Whitespace test used by `str.strip`. -/
def wsChar (c : Char) : Bool := c = ' ' || c = '\t' || c = '\n' || c = '\r'

/-- Embeds `str.strip()`: drop whitespace from both ends. -/
def strip (s : Str) : Str :=
  ((s.dropWhile wsChar).reverse.dropWhile wsChar).reverse

/-- The `Expense` data model of `expense.py`: id, amount, category,
description, date. -/
structure Expense where
  id : Str
  amount : Rat
  category : Str
  description : Str
  date : Str
deriving DecidableEq, Repr

namespace Expense

/-- Embeds `Expense.CATEGORIES` from `expense.py`. -/
def CATEGORIES : List Str :=
  ["Food".data, "Transport".data, "Housing".data, "Health".data,
   "Entertainment".data, "Shopping".data, "Education".data, "Other".data]

/-- Embeds `Expense.__init__`: `expense_id or str(uuid.uuid4())[:8]` (falsy
test, so `None` and `""` both trigger generation), category coerced to
`"Other"` when not in `CATEGORIES`, description stripped,
`date_str or today` (same falsy test).  `fresh` stands for
`str(uuid.uuid4())[:8]` and `today` for `datetime.today().strftime(...)`. -/
def init (amount : Rat) (category description : Str)
    (date_str : Option Str) (expense_id : Option Str)
    (fresh today : Str) : Expense :=
  { id := match expense_id with
      | some s => if s ≠ [] then s else fresh
      | none => fresh
    amount := amount
    category := if category ∈ CATEGORIES then category else "Other".data
    description := strip description
    date := match date_str with
      | some s => if s ≠ [] then s else today
      | none => today }

/-- A persisted CSV row: the dict `{id, amount, category, description,
date}` written by `csv.DictWriter`.  The amount round-trips through
`str`/`float` exactly, so it stays a `Rat`. -/
structure Row where
  id : Str
  amount : Rat
  category : Str
  description : Str
  date : Str
deriving DecidableEq, Repr

/-- Embeds `Expense.to_dict`. -/
def to_dict (e : Expense) : Row :=
  { id := e.id, amount := e.amount, category := e.category,
    description := e.description, date := e.date }

/-- Embeds `Expense.from_dict`: rebuilds through `__init__` with
`expense_id = d["id"]` and `date_str = d["date"]`. -/
def from_dict (fresh today : Str) (d : Row) : Expense :=
  init d.amount d.category d.description (some d.date) (some d.id) fresh today

end Expense

/-- The state a `Budget` object owns: the in-memory list
`self.expenses` and the CSV file (`none` when the file does not
exist). -/
structure Store where
  expenses : List Expense
  file : Option (List Expense.Row)
deriving DecidableEq, Repr

namespace Budget

/-- Embeds `Budget._save`: rewrites the whole file from `self.expenses`. -/
def save (s : Store) : Store :=
  { s with file := some (s.expenses.map Expense.to_dict) }

/-- The row-to-expense conversion loop of `Budget._load`; `i` indexes
the `fresh` id supply (one potential uuid per row). -/
def loadExpenses (fresh : Nat → Str) (today : Str) :
    Nat → List Expense.Row → List Expense
  | _, [] => []
  | i, r :: rest =>
      Expense.from_dict (fresh i) today r :: loadExpenses fresh today (i + 1) rest

/-- Embeds `Budget._load`: a no-op when the file is absent, otherwise appends
one `Expense.from_dict` per row to `self.expenses`. -/
def load (fresh : Nat → Str) (today : Str) (s : Store) : Store :=
  match s.file with
  | none => s
  | some rows =>
      { s with expenses := s.expenses ++ loadExpenses fresh today 0 rows }

/-- Embeds `Budget.add`: append, `_save`, return the stored expense. -/
def add (s : Store) (e : Expense) : Store × Expense :=
  (save { s with expenses := s.expenses ++ [e] }, e)

/-- The body of `Budget.read_all` as a pure function of the list.
`if category:` and `if month:` are Python truthiness tests, so `None`
and `""` both skip the filter. -/
def read_allList (expenses : List Expense)
    (category month : Option Str) : List Expense :=
  let result := expenses
  let result := match category with
    | some c =>
        if c ≠ [] then
          result.filter (fun e => lowerStr e.category == lowerStr c)
        else result
    | none => result
  match month with
  | some m =>
      if m ≠ [] then result.filter (fun e => List.isPrefixOf m e.date)
      else result
  | none => result

/-- Embeds `Budget.read_all` as a method: reads `self.expenses`, never writes. -/
def read_all (s : Store) (category month : Option Str) :
    Store × List Expense :=
  (s, read_allList s.expenses category month)

/-- The keyword arguments `Budget.update` accepts (`**kwargs`); a field
absent from the call is `none`. -/
structure UpdateFields where
  amount : Option Rat := none
  category : Option Str := none
  description : Option Str := none
  date : Option Str := none
deriving DecidableEq, Repr

/-- The field assignments inside `Budget.update`'s loop body: amount
via `float(...)`, category only when it is in `CATEGORIES`, description
stripped, date as given. -/
def applyFields (k : UpdateFields) (e : Expense) : Expense :=
  let e := match k.amount with
    | some a => { e with amount := a }
    | none => e
  let e := match k.category with
    | some c => if c ∈ Expense.CATEGORIES then { e with category := c } else e
    | none => e
  let e := match k.description with
    | some d => { e with description := strip d }
    | none => e
  match k.date with
  | some d => { e with date := d }
  | none => e

/-- The search loop of `Budget.update`: mutate and return at the first
id match, leave the rest untouched. -/
def updateList (expense_id : Str) (k : UpdateFields) :
    List Expense → List Expense × Option Expense
  | [] => ([], none)
  | exp :: rest =>
      if exp.id == expense_id then
        (applyFields k exp :: rest, some (applyFields k exp))
      else
        match updateList expense_id k rest with
        | (rest2, r) => (exp :: rest2, r)

/-- Embeds `Budget.update`: first id match is updated and `_save` runs; no
match returns `None` without saving. -/
def update (s : Store) (expense_id : Str) (k : UpdateFields) :
    Store × Option Expense :=
  match updateList expense_id k s.expenses with
  | (es, some e) => (save { s with expenses := es }, some e)
  | (es, none) => ({ s with expenses := es }, none)

/-- Embeds `Budget.delete`: rebuilds `self.expenses` without every record
whose id matches, `_save`s only when the length shrank. -/
def delete (s : Store) (expense_id : Str) : Store × Bool :=
  let kept := s.expenses.filter (fun e => !(e.id == expense_id))
  if kept.length < s.expenses.length then
    (save { s with expenses := kept }, true)
  else
    ({ s with expenses := kept }, false)

/-- Embeds `Budget.total`: sum of amounts over a filtered read. -/
def total (s : Store) (category month : Option Str) : Store × Rat :=
  (s, ((read_allList s.expenses category month).map (fun e => e.amount)).sum)

end Budget

namespace Analytics

/-- One step of `Analytics._by_category`'s `defaultdict` accumulation:
add `amt` to the entry for `cat`, appending a new entry when the
category is not present yet (dict insertion order). -/
def addToTotals (totals : List (Str × Rat)) (cat : Str) (amt : Rat) :
    List (Str × Rat) :=
  match totals with
  | [] => [(cat, amt)]
  | (c, a) :: rest =>
      if c == cat then (c, a + amt) :: rest
      else (c, a) :: addToTotals rest cat amt

/-- Embeds `Analytics._by_category`: category → summed amount, in first-seen
order. -/
def by_category (expenses : List Expense) : List (Str × Rat) :=
  expenses.foldl (fun t e => addToTotals t e.category e.amount) []

/-- Stable descending insertion on the summed amount, for the model of
`sorted(by_cat.items(), key=lambda x: -x[1])` (Python `sorted` is
stable). -/
def insertDesc (x : Str × Rat) : List (Str × Rat) → List (Str × Rat)
  | [] => [x]
  | y :: ys => if y.2 < x.2 then x :: y :: ys else y :: insertDesc x ys

/-- Sort the per-category totals by descending amount. -/
def sortDesc : List (Str × Rat) → List (Str × Rat)
  | [] => []
  | x :: xs => insertDesc x (sortDesc xs)

/-- Embeds `round(x, 1)`: round to one decimal place. -/
def round1 (x : Rat) : Rat := (round (x * 10) : Int) / 10

/-- One entry of the `breakdown` list built by `Analytics.summary`. -/
structure BreakdownEntry where
  category : Str
  amount : Rat
  percent : Rat
deriving DecidableEq, Repr

/-- The result dict of `Analytics.summary`. -/
structure Summary where
  total : Rat
  count : Nat
  breakdown : List BreakdownEntry
deriving DecidableEq, Repr

/-- Embeds `Analytics.summary(month)`: filters by month through
`read_all(month=month)`, sums the total, groups by category, and emits
`{category, amount, percent}` entries sorted by descending amount, with
`percent = round(amt / total * 100, 1) if total else 0`. -/
def summary (expenses : List Expense) (month : Option Str) : Summary :=
  let es := Budget.read_allList expenses none month
  let total := (es.map (fun e => e.amount)).sum
  let by_cat := by_category es
  let breakdown := (sortDesc by_cat).map (fun p =>
    { category := p.1, amount := p.2,
      percent := if total ≠ 0 then round1 (p.2 / total * 100) else 0 })
  { total := total, count := es.length, breakdown := breakdown }

end Analytics

/-! ### Specification-side definitions -/

/-- The filter predicate of `read_all` as §4.2 of the spec words it:
a given (truthy) category filter demands case-insensitive category
equality, a given month filter demands the date to start with the
month prefix, and an absent filter matches every record. -/
def specMatch (category month : Option Str) (e : Expense) : Bool :=
  (match category with
   | some c => c = ([] : Str) || lowerStr e.category == lowerStr c
   | none => true) &&
  (match month with
   | some m => m = ([] : Str) || List.isPrefixOf m e.date
   | none => true)

/-- The stored-expense invariant of §3 of the spec: every stored
expense has a non-empty id, unique within the ledger, and a category
drawn from the fixed set. -/
def LedgerInv (l : List Expense) : Prop :=
  (∀ e ∈ l, e.id ≠ [] ∧ e.category ∈ Expense.CATEGORIES) ∧
    (l.map (fun e => e.id)).Nodup

instance (l : List Expense) : Decidable (LedgerInv l) := by
  unfold LedgerInv; infer_instance

/-! ### Concrete records used to evaluate the theorems -/

/-- A concrete valid expense. -/
def foodExpense : Expense :=
  ⟨"aaaa1111".data, 100, "Food".data, "lunch".data, "2024-05-01".data⟩

/-- A second concrete valid expense. -/
def busExpense : Expense :=
  ⟨"bbbb2222".data, 50, "Transport".data, "bus".data, "2024-05-02".data⟩

/-- A third concrete valid expense, in another month. -/
def groceryExpense : Expense :=
  ⟨"cccc3333".data, 200, "Food".data, "groceries".data, "2024-06-01".data⟩

/-- The three-record scenario of §8 of the spec. -/
def demoLedger : List Expense := [foodExpense, busExpense, groceryExpense]

/-- A record that satisfies the §3 invariant but carries an empty date
and an untrimmed description (the date is reachable through
`update(date="")`, which stores the empty string verbatim). -/
def untrimmedExpense : Expense :=
  ⟨"ab12cd34".data, 5, "Food".data, " lunch ".data, []⟩

/-! ### C10: empty-string filters are treated as absent -/

theorem read_allList_empty_category (expenses : List Expense)
    (month : Option Str) :
    Budget.read_allList expenses (some []) month =
      Budget.read_allList expenses none month := by
  simp [Budget.read_allList]

theorem read_allList_empty_month (expenses : List Expense)
    (category : Option Str) :
    Budget.read_allList expenses category (some []) =
      Budget.read_allList expenses category none := by
  cases category with
  | none => simp [Budget.read_allList]
  | some c => by_cases hc : c = [] <;> simp [Budget.read_allList, hc]

/-- C10: `read_all` tests its filters for truthiness, so an empty
string passed as the category filter or as the month filter behaves
exactly like an absent filter, and `read_all(category="")` /
`read_all(month="")` return all records. -/
theorem read_all_empty_string_filters (s : Store) :
    (Budget.read_all s (some []) none).2 = s.expenses ∧
    (Budget.read_all s none (some [])).2 = s.expenses ∧
    (∀ month : Option Str,
      (Budget.read_all s (some []) month).2 =
        (Budget.read_all s none month).2) ∧
    (∀ category : Option Str,
      (Budget.read_all s category (some [])).2 =
        (Budget.read_all s category none).2) := by
  refine ⟨?_, ?_, ?_, ?_⟩
  · simp [Budget.read_all, Budget.read_allList]
  · simp [Budget.read_all, Budget.read_allList]
  · intro month
    simp [Budget.read_all, read_allList_empty_category]
  · intro category
    simp [Budget.read_all, read_allList_empty_month]

/-! ### C9: read operations do not change the state -/

/-- C9: `read_all` and `total` are pure reads — the store (in-memory
list and persisted file alike) after the call is the store before it.
This holds because their translations touch no field of the state. -/
theorem read_operations_leave_store_unchanged (s : Store)
    (category month : Option Str) :
    (Budget.read_all s category month).1 = s ∧
    (Budget.total s category month).1 = s :=
  ⟨rfl, rfl⟩

/-! ### C2: read_all returns exactly the matching records, in order -/

theorem read_allList_eq_filter (expenses : List Expense)
    (category month : Option Str) :
    Budget.read_allList expenses category month =
      expenses.filter (specMatch category month) := by
  have htrue : (∀ e, specMatch category month e = true) →
      expenses.filter (specMatch category month) = expenses := by
    intro h
    exact List.filter_eq_self.mpr (fun e _ => h e)
  cases category with
  | none =>
      cases month with
      | none =>
          rw [htrue (fun e => by simp [specMatch])]
          simp [Budget.read_allList]
      | some m =>
          by_cases hm : m = []
          · rw [htrue (fun e => by simp [specMatch, hm])]
            simp [Budget.read_allList, hm]
          · simp only [Budget.read_allList, hm, ne_eq, not_false_iff, if_true]
            exact List.filter_congr (fun e _ => by simp [specMatch, hm])
  | some c =>
      by_cases hc : c = []
      · cases month with
        | none =>
            rw [htrue (fun e => by simp [specMatch, hc])]
            simp [Budget.read_allList, hc]
        | some m =>
            by_cases hm : m = []
            · rw [htrue (fun e => by simp [specMatch, hc, hm])]
              simp [Budget.read_allList, hc, hm]
            · simp only [Budget.read_allList, hc, hm, ne_eq, not_false_iff,
                if_true, not_true, if_false]
              exact List.filter_congr (fun e _ => by simp [specMatch, hc, hm])
      · cases month with
        | none =>
            simp only [Budget.read_allList, hc, ne_eq, not_false_iff, if_true]
            exact List.filter_congr (fun e _ => by simp [specMatch, hc])
        | some m =>
            by_cases hm : m = []
            · simp only [Budget.read_allList, hc, hm, ne_eq, not_false_iff,
                if_true, not_true, if_false]
              exact List.filter_congr (fun e _ => by simp [specMatch, hc, hm])
            · simp only [Budget.read_allList, hc, hm, ne_eq, not_false_iff,
                if_true, List.filter_filter]
              exact List.filter_congr (fun e _ => by
                simp [specMatch, hc, hm, Bool.and_comm])

/-- C2: `read_all` returns exactly the records matching the given
filters — case-insensitive category equality when a category filter is
given, date-prefix match when a month filter is given, everything when
no filter is given — and the result is a sublist of the ledger, so
insertion order is preserved and nothing is re-sorted. -/
theorem read_all_returns_matching_records (s : Store)
    (category month : Option Str) :
    (Budget.read_all s category month).2 =
      s.expenses.filter (specMatch category month) ∧
    ((Budget.read_all s category month).2).Sublist s.expenses ∧
    (Budget.read_all s none none).2 = s.expenses := by
  refine ⟨read_allList_eq_filter s.expenses category month, ?_, rfl⟩
  rw [show (Budget.read_all s category month).2 =
        Budget.read_allList s.expenses category month from rfl,
      read_allList_eq_filter]
  exact List.filter_sublist s.expenses

/-! ### C3: update on an unknown id is a signalled no-op -/

theorem applyFields_id_eq (k : Budget.UpdateFields) (e : Expense) :
    (Budget.applyFields k e).id = e.id := by
  rcases k with ⟨a, c, d, dt⟩
  cases a <;> cases c <;> cases d <;> cases dt <;>
    simp only [Budget.applyFields] <;> try split
  all_goals rfl

theorem updateList_not_found (expense_id : Str) (k : Budget.UpdateFields)
    (l : List Expense) (h : expense_id ∉ l.map (fun e => e.id)) :
    Budget.updateList expense_id k l = (l, none) := by
  induction l with
  | nil => rfl
  | cons exp rest ih =>
      simp only [List.map_cons, List.mem_cons, not_or] at h
      have hne : (exp.id == expense_id) = false := by
        rw [beq_eq_false_iff_ne]
        exact fun he => h.1 he.symm
      simp [Budget.updateList, hne, ih h.2]

theorem updateList_found (expense_id : Str) (k : Budget.UpdateFields)
    (pre : List Expense) (e : Expense) (post : List Expense)
    (hid : e.id = expense_id) (hpre : expense_id ∉ pre.map (fun x => x.id)) :
    Budget.updateList expense_id k (pre ++ e :: post) =
      (pre ++ Budget.applyFields k e :: post,
        some (Budget.applyFields k e)) := by
  induction pre with
  | nil => simp [Budget.updateList, hid]
  | cons p ps ih =>
      simp only [List.map_cons, List.mem_cons, not_or] at hpre
      have hne : (p.id == expense_id) = false := by
        rw [beq_eq_false_iff_ne]
        exact fun hp => hpre.1 hp.symm
      simp [Budget.updateList, hne, ih hpre.2]

theorem applyFields_fields (k : Budget.UpdateFields) (e : Expense) :
    (k.amount = none → (Budget.applyFields k e).amount = e.amount) ∧
    (∀ a, k.amount = some a → (Budget.applyFields k e).amount = a) ∧
    (k.category = none → (Budget.applyFields k e).category = e.category) ∧
    (∀ c, k.category = some c → c ∈ Expense.CATEGORIES →
       (Budget.applyFields k e).category = c) ∧
    (∀ c, k.category = some c → c ∉ Expense.CATEGORIES →
       (Budget.applyFields k e).category = e.category) ∧
    (k.description = none →
       (Budget.applyFields k e).description = e.description) ∧
    (∀ d, k.description = some d →
       (Budget.applyFields k e).description = strip d) ∧
    (k.date = none → (Budget.applyFields k e).date = e.date) ∧
    (∀ d, k.date = some d → (Budget.applyFields k e).date = d) := by
  rcases k with ⟨a, c, d, dt⟩
  cases a <;> cases c <;> cases d <;> cases dt <;>
    simp only [Budget.applyFields] <;>
    refine ⟨?_, ?_, ?_, ?_, ?_, ?_, ?_, ?_, ?_⟩ <;>
    intros <;> (try split_ifs) <;> simp_all

/-- C3: `update` with an id matching no record returns `None` and
leaves the store (collection and file) untouched; with a matching id
it rewrites only that record, applying exactly the provided fields
(amount as given, category only when valid, description stripped, date
as given), keeping its id, every unprovided field, and every other
record. -/
theorem update_unknown_id_noop_known_id_targeted (s : Store)
    (expense_id : Str) (k : Budget.UpdateFields) :
    (expense_id ∉ s.expenses.map (fun e => e.id) →
        (Budget.update s expense_id k).2 = none ∧
        (Budget.update s expense_id k).1 = s) ∧
    (∀ pre e post, s.expenses = pre ++ e :: post →
        expense_id ∉ pre.map (fun x => x.id) → e.id = expense_id →
        (Budget.update s expense_id k).1.expenses =
          pre ++ Budget.applyFields k e :: post ∧
        (Budget.update s expense_id k).2 =
          some (Budget.applyFields k e)) ∧
    (∀ e, (Budget.applyFields k e).id = e.id ∧
       (k.amount = none → (Budget.applyFields k e).amount = e.amount) ∧
       (∀ a, k.amount = some a → (Budget.applyFields k e).amount = a) ∧
       (k.category = none →
          (Budget.applyFields k e).category = e.category) ∧
       (∀ c, k.category = some c → c ∈ Expense.CATEGORIES →
          (Budget.applyFields k e).category = c) ∧
       (k.description = none →
          (Budget.applyFields k e).description = e.description) ∧
       (∀ d, k.description = some d →
          (Budget.applyFields k e).description = strip d) ∧
       (k.date = none → (Budget.applyFields k e).date = e.date) ∧
       (∀ d, k.date = some d → (Budget.applyFields k e).date = d)) := by
  refine ⟨?_, ?_, ?_⟩
  · intro h
    simp [Budget.update, updateList_not_found expense_id k s.expenses h]
  · intro pre e post hsplit hpre hid
    rw [Budget.update, hsplit, updateList_found expense_id k pre e post hid hpre]
    exact ⟨rfl, rfl⟩
  · intro e
    obtain ⟨h1, h2, h3, h4, _, h5, h6, h7, h8⟩ := applyFields_fields k e
    exact ⟨applyFields_id_eq k e, h1, h2, h3, h4, h5, h6, h7, h8⟩

/-- Witness for the `update` theorem: an unknown id is reported as
`None` with the store intact, and a known id receives the update. -/
theorem update_unknown_id_noop_known_id_targeted_witness :
    ((Budget.update ⟨[foodExpense], none⟩ "zzzz9999".data {}).2 = none ∧
      (Budget.update ⟨[foodExpense], none⟩ "zzzz9999".data {}).1 =
        ⟨[foodExpense], none⟩) ∧
    (Budget.update ⟨[foodExpense], none⟩ "aaaa1111".data
        { date := some "2024-07-01".data }).2 =
      some (Budget.applyFields { date := some "2024-07-01".data } foodExpense) :=
  ⟨(update_unknown_id_noop_known_id_targeted ⟨[foodExpense], none⟩
      "zzzz9999".data {}).1 (by decide),
   ((update_unknown_id_noop_known_id_targeted ⟨[foodExpense], none⟩
      "aaaa1111".data { date := some "2024-07-01".data }).2.1
      [] foodExpense [] rfl (by decide) (by decide)).2⟩

/-! ### C4: delete removes one record when the id exists -/

theorem filter_ne_id_eq_self (expense_id : Str) (l : List Expense)
    (h : expense_id ∉ l.map (fun e => e.id)) :
    l.filter (fun e => !(e.id == expense_id)) = l := by
  apply List.filter_eq_self.mpr
  intro e he
  simp only [Bool.not_eq_eq_eq_not, Bool.not_true, beq_eq_false_iff_ne, ne_eq]
  intro heq
  exact h (heq ▸ List.mem_map_of_mem (fun x => x.id) he)

theorem filter_ne_id_length (expense_id : Str) (l : List Expense)
    (hnd : (l.map (fun e => e.id)).Nodup)
    (hmem : expense_id ∈ l.map (fun e => e.id)) :
    (l.filter (fun e => !(e.id == expense_id))).length + 1 = l.length := by
  induction l with
  | nil => simp at hmem
  | cons e rest ih =>
      simp only [List.map_cons, List.nodup_cons] at hnd
      by_cases he : e.id = expense_id
      · have hrest : expense_id ∉ rest.map (fun x => x.id) := he ▸ hnd.1
        have hd : (!(e.id == expense_id)) = false := by simp [he]
        rw [List.filter_cons]
        simp only [hd, Bool.false_eq_true, if_false, List.length_cons]
        rw [filter_ne_id_eq_self expense_id rest hrest]
      · have hmem2 : expense_id ∈ rest.map (fun x => x.id) := by
          rcases List.mem_cons.mp hmem with h | h
          · exact absurd h.symm he
          · exact h
        have hd : (!(e.id == expense_id)) = true := by simp [he]
        rw [List.filter_cons]
        simp only [hd, if_true, List.length_cons]
        have := ih hnd.2 hmem2
        omega

/-- C4 (amended with the §3 uniqueness invariant on ids, which the
counterexample shows is needed): on a ledger with pairwise-distinct
ids, `delete` removes exactly one record when the id exists and none
otherwise (then the store is untouched), returns `true` exactly when a
record was removed, and the size decreases by at most one. -/
theorem delete_removes_exactly_one (s : Store) (expense_id : Str)
    (h : (s.expenses.map (fun e => e.id)).Nodup) :
    (expense_id ∈ s.expenses.map (fun e => e.id) →
       ((Budget.delete s expense_id).1.expenses).length + 1 =
         s.expenses.length) ∧
    (expense_id ∉ s.expenses.map (fun e => e.id) →
       (Budget.delete s expense_id).1 = s) ∧
    ((Budget.delete s expense_id).2 = true ↔
       expense_id ∈ s.expenses.map (fun e => e.id)) ∧
    s.expenses.length ≤ ((Budget.delete s expense_id).1.expenses).length + 1 := by
  obtain ⟨es, f⟩ := s
  by_cases hm : expense_id ∈ es.map (fun e => e.id)
  · have hlen := filter_ne_id_length expense_id es h hm
    have hlt : (es.filter (fun e => !(e.id == expense_id))).length <
        es.length := by omega
    have hdel : Budget.delete ⟨es, f⟩ expense_id =
        (Budget.save ⟨es.filter (fun e => !(e.id == expense_id)), f⟩, true) := by
      simp only [Budget.delete]
      rw [if_pos hlt]
    refine ⟨fun _ => ?_, fun hn => absurd hm hn, ?_, ?_⟩
    · rw [hdel]
      exact hlen
    · rw [hdel]
      simp [hm]
    · rw [hdel]
      simp only [Budget.save]
      omega
  · have heq := filter_ne_id_eq_self expense_id es hm
    have hnlt : ¬ ((es.filter (fun e => !(e.id == expense_id))).length <
        es.length) := by rw [heq]; omega
    have hdel : Budget.delete ⟨es, f⟩ expense_id =
        (⟨es.filter (fun e => !(e.id == expense_id)), f⟩, false) := by
      simp only [Budget.delete]
      rw [if_neg hnlt]
    refine ⟨fun hc => absurd hc hm, fun _ => ?_, ?_, ?_⟩
    · rw [hdel, heq]
    · rw [hdel]
      simp [hm]
    · rw [hdel]
      dsimp only
      rw [heq]
      omega

/-- Witness for the `delete` theorem at a two-record store: deleting
an existing id shrinks the ledger by one and reports success. -/
theorem delete_removes_exactly_one_witness :
    ((Budget.delete ⟨[foodExpense, busExpense], none⟩
        "aaaa1111".data).1.expenses).length + 1 =
      ([foodExpense, busExpense] : List Expense).length ∧
    (Budget.delete ⟨[foodExpense, busExpense], none⟩ "aaaa1111".data).2 = true :=
  ⟨(delete_removes_exactly_one ⟨[foodExpense, busExpense], none⟩
      "aaaa1111".data (by decide)).1 (by decide),
   (delete_removes_exactly_one ⟨[foodExpense, busExpense], none⟩
      "aaaa1111".data (by decide)).2.2.1.mpr (by decide)⟩

/-- Counterexample to C4 as stated (quantified over every ledger
state): with two records sharing one id, a single `delete` removes
both, so the size drops by two. -/
theorem delete_duplicate_ids_counterexample :
    ((Budget.delete ⟨[untrimmedExpense, untrimmedExpense], none⟩
        "ab12cd34".data).1.expenses).length = 0 ∧
    ¬ (([untrimmedExpense, untrimmedExpense] : List Expense).length ≤
        ((Budget.delete ⟨[untrimmedExpense, untrimmedExpense], none⟩
          "ab12cd34".data).1.expenses).length + 1) := by
  constructor
  · decide
  · decide

/-! ### C7: handling of invalid categories -/

theorem update_snd_eq (s : Store) (expense_id : Str)
    (k : Budget.UpdateFields) :
    (Budget.update s expense_id k).2 =
      (Budget.updateList expense_id k s.expenses).2 := by
  rcases hu : Budget.updateList expense_id k s.expenses with ⟨es, r⟩
  simp only [Budget.update, hu]
  cases r <;> rfl

theorem updateList_mem_some (expense_id : Str) (k : Budget.UpdateFields)
    (l : List Expense) (h : expense_id ∈ l.map (fun e => e.id)) :
    ((Budget.updateList expense_id k l).2).isSome = true := by
  induction l with
  | nil => simp at h
  | cons e rest ih =>
      by_cases he : (e.id == expense_id) = true
      · simp [Budget.updateList, he]
      · have hmem : expense_id ∈ rest.map (fun x => x.id) := by
          rcases List.mem_cons.mp h with h1 | h1
          · exact absurd (by simp [h1]) he
          · exact h1
        rcases hu : Budget.updateList expense_id k rest with ⟨rest2, r⟩
        have hr := ih hmem
        rw [hu] at hr
        simp only [Budget.updateList, he, Bool.false_eq_true, if_false, hu]
        exact hr

/-- C7 (amended): constructing an expense with a category outside the
fixed set silently coerces it to "Other"; `update` with an invalid
category silently ignores it, leaving the record's category unchanged;
in both cases the operation completes without error (`update` still
returns the record whenever the id exists). -/
theorem invalid_category_handling (amount : Rat)
    (category description : Str) (ds ei : Option Str) (fresh today : Str)
    (k : Budget.UpdateFields) (e : Expense) (s : Store) (expense_id : Str) :
    (category ∉ Expense.CATEGORIES →
       (Expense.init amount category description ds ei fresh today).category =
         "Other".data) ∧
    (∀ c, k.category = some c → c ∉ Expense.CATEGORIES →
       (Budget.applyFields k e).category = e.category) ∧
    (expense_id ∈ s.expenses.map (fun x => x.id) →
       ((Budget.update s expense_id k).2).isSome = true) := by
  refine ⟨?_, ?_, ?_⟩
  · intro h
    simp [Expense.init, h]
  · intro c hc hmem
    exact (applyFields_fields k e).2.2.2.2.1 c hc hmem
  · intro h
    rw [update_snd_eq]
    exact updateList_mem_some expense_id k s.expenses h

/-- Witness for the invalid-category theorem at the concrete invalid
category "Junk". -/
theorem invalid_category_handling_witness :
    (Expense.init 5 "Junk".data "x".data none none "dddd4444".data
        "2024-05-01".data).category = "Other".data ∧
    (Budget.applyFields { category := some "Junk".data } foodExpense).category =
      foodExpense.category ∧
    ((Budget.update ⟨[foodExpense], none⟩ "aaaa1111".data
        { category := some "Junk".data }).2).isSome = true :=
  ⟨(invalid_category_handling 5 "Junk".data "x".data none none
      "dddd4444".data "2024-05-01".data { category := some "Junk".data }
      foodExpense ⟨[foodExpense], none⟩ "aaaa1111".data).1 (by decide),
   (invalid_category_handling 5 "Junk".data "x".data none none
      "dddd4444".data "2024-05-01".data { category := some "Junk".data }
      foodExpense ⟨[foodExpense], none⟩ "aaaa1111".data).2.1
      "Junk".data rfl (by decide),
   (invalid_category_handling 5 "Junk".data "x".data none none
      "dddd4444".data "2024-05-01".data { category := some "Junk".data }
      foodExpense ⟨[foodExpense], none⟩ "aaaa1111".data).2.2 (by decide)⟩

/-- Counterexample to C7 as stated: `update` on an existing record
with the invalid category "Junk" leaves the category "Food" — it is
not normalized to the fallback "Other". -/
theorem update_invalid_category_counterexample :
    (Budget.update ⟨[foodExpense], none⟩ "aaaa1111".data
        { category := some "Junk".data }).2.map (fun e => e.category) =
      some "Food".data ∧
    "Food".data ≠ "Other".data := by
  constructor
  · decide
  · decide

/-! ### C8: add followed by an unfiltered read_all -/

/-- C8: after `add`, an unfiltered `read_all` lists the new record
exactly once (given that its freshly generated id is not already in
the ledger), and `add` returns the stored expense itself. -/
theorem add_then_read_all_contains_once (s : Store) (e : Expense)
    (h : e.id ∉ s.expenses.map (fun x => x.id)) :
    ((Budget.read_all (Budget.add s e).1 none none).2).count e = 1 ∧
    (Budget.add s e).2 = e := by
  have hnotmem : e ∉ s.expenses := fun hm =>
    h (List.mem_map_of_mem (fun x => x.id) hm)
  constructor
  · have hra : (Budget.read_all (Budget.add s e).1 none none).2 =
        s.expenses ++ [e] := rfl
    rw [hra, List.count_append, List.count_eq_zero.mpr hnotmem]
    simp
  · rfl

/-- Witness: adding a fresh record to a one-record ledger makes an
unfiltered `read_all` list it exactly once. -/
theorem add_then_read_all_contains_once_witness :
    ((Budget.read_all (Budget.add ⟨[busExpense], none⟩ foodExpense).1
        none none).2).count foodExpense = 1 ∧
    (Budget.add ⟨[busExpense], none⟩ foodExpense).2 = foodExpense :=
  add_then_read_all_contains_once ⟨[busExpense], none⟩ foodExpense (by decide)

/-! ### C6: the stored-expense invariant is preserved by every operation -/

theorem init_category_mem (amount : Rat) (category description : Str)
    (ds ei : Option Str) (fresh today : Str) :
    (Expense.init amount category description ds ei fresh today).category ∈
      Expense.CATEGORIES := by
  simp only [Expense.init]
  split_ifs with h
  · exact h
  · simp [Expense.CATEGORIES]

theorem applyFields_category_mem (k : Budget.UpdateFields) (e : Expense)
    (h : e.category ∈ Expense.CATEGORIES) :
    (Budget.applyFields k e).category ∈ Expense.CATEGORIES := by
  obtain ⟨_, _, h3, h4, h5, _⟩ := applyFields_fields k e
  cases hc : k.category with
  | none => rw [h3 hc]; exact h
  | some c =>
      by_cases hmem : c ∈ Expense.CATEGORIES
      · rw [h4 c hc hmem]; exact hmem
      · rw [h5 c hc hmem]; exact h

theorem updateList_map_id (expense_id : Str) (k : Budget.UpdateFields)
    (l : List Expense) :
    ((Budget.updateList expense_id k l).1).map (fun e => e.id) =
      l.map (fun e => e.id) := by
  induction l with
  | nil => rfl
  | cons e rest ih =>
      by_cases he : (e.id == expense_id) = true
      · simp [Budget.updateList, he, applyFields_id_eq]
      · rcases hu : Budget.updateList expense_id k rest with ⟨rest2, r⟩
        rw [hu] at ih
        simp only [Budget.updateList, he, Bool.false_eq_true, if_false, hu,
          List.map_cons]
        rw [ih]

theorem updateList_mem_prop (expense_id : Str) (k : Budget.UpdateFields)
    (l : List Expense) (P : Expense → Prop)
    (hP : ∀ e, P e → P (Budget.applyFields k e)) (h : ∀ e ∈ l, P e) :
    ∀ x ∈ (Budget.updateList expense_id k l).1, P x := by
  induction l with
  | nil => simp [Budget.updateList]
  | cons e rest ih =>
      by_cases he : (e.id == expense_id) = true
      · simp only [Budget.updateList, he, if_true]
        intro x hx
        rcases List.mem_cons.mp hx with hx | hx
        · exact hx ▸ hP e (h e (List.mem_cons_self e rest))
        · exact h x (List.mem_cons_of_mem e hx)
      · rcases hu : Budget.updateList expense_id k rest with ⟨rest2, r⟩
        have ih2 := ih (fun x hx => h x (List.mem_cons_of_mem e hx))
        rw [hu] at ih2
        simp only [Budget.updateList, he, Bool.false_eq_true, if_false, hu]
        intro x hx
        rcases List.mem_cons.mp hx with hx | hx
        · exact hx ▸ h e (List.mem_cons_self e rest)
        · exact ih2 x hx

theorem update_state_expenses (s : Store) (expense_id : Str)
    (k : Budget.UpdateFields) :
    (Budget.update s expense_id k).1.expenses =
      (Budget.updateList expense_id k s.expenses).1 := by
  rcases hu : Budget.updateList expense_id k s.expenses with ⟨es, r⟩
  simp only [Budget.update, hu]
  cases r <;> rfl

theorem delete_state_expenses (s : Store) (expense_id : Str) :
    (Budget.delete s expense_id).1.expenses =
      s.expenses.filter (fun e => !(e.id == expense_id)) := by
  simp only [Budget.delete]
  split <;> rfl

theorem from_dict_id (fresh today : Str) (r : Expense.Row)
    (h : r.id ≠ []) : (Expense.from_dict fresh today r).id = r.id := by
  simp [Expense.from_dict, Expense.init, h]

theorem loadExpenses_map_id (fresh : Nat → Str) (today : Str)
    (rows : List Expense.Row) (h : ∀ r ∈ rows, r.id ≠ ([] : Str)) :
    ∀ i, ((Budget.loadExpenses fresh today i rows).map (fun e => e.id)) =
      rows.map (fun r => r.id) := by
  induction rows with
  | nil => intro i; rfl
  | cons r rest ih =>
      intro i
      simp only [Budget.loadExpenses, List.map_cons]
      rw [from_dict_id (fresh i) today r (h r (List.mem_cons_self r rest)),
        ih (fun x hx => h x (List.mem_cons_of_mem r hx)) (i + 1)]

theorem loadExpenses_mem (fresh : Nat → Str) (today : Str)
    (rows : List Expense.Row) (i : Nat) (x : Expense)
    (hx : x ∈ Budget.loadExpenses fresh today i rows) :
    ∃ j r, r ∈ rows ∧ x = Expense.from_dict (fresh j) today r := by
  induction rows generalizing i with
  | nil => simp [Budget.loadExpenses] at hx
  | cons r rest ih =>
      simp only [Budget.loadExpenses] at hx
      rcases List.mem_cons.mp hx with hx | hx
      · exact ⟨i, r, List.mem_cons_self r rest, hx⟩
      · obtain ⟨j, r2, hr2, hxe⟩ := ih (i + 1) hx
        exact ⟨j, r2, List.mem_cons_of_mem r hr2, hxe⟩

/-- C6: every ledger operation preserves the stored-expense invariant
(non-empty ids, unique within the ledger, categories in the fixed
set): `add` of a freshly constructed expense (non-empty unseen id,
valid category), `update`, `delete`, and `_load` of a well-formed file
into an empty ledger; and `Expense.__init__` itself always produces a
valid category and, when the uuid is non-empty, a non-empty id. -/
theorem operations_preserve_ledger_invariant (s : Store) (e : Expense)
    (expense_id : Str) (k : Budget.UpdateFields) (fresh : Nat → Str)
    (today : Str) (rows : List Expense.Row) :
    (LedgerInv s.expenses → e.id ≠ [] → e.category ∈ Expense.CATEGORIES →
       e.id ∉ s.expenses.map (fun x => x.id) →
       LedgerInv ((Budget.add s e).1.expenses)) ∧
    (LedgerInv s.expenses →
       LedgerInv ((Budget.update s expense_id k).1.expenses)) ∧
    (LedgerInv s.expenses →
       LedgerInv ((Budget.delete s expense_id).1.expenses)) ∧
    ((∀ r ∈ rows, r.id ≠ ([] : Str)) →
       (rows.map (fun r => r.id)).Nodup →
       LedgerInv ((Budget.load fresh today ⟨[], some rows⟩).expenses)) ∧
    (∀ amount category description ds fr td, fr ≠ ([] : Str) →
       (Expense.init amount category description ds none fr td).id ≠ [] ∧
       (Expense.init amount category description ds none fr td).category ∈
         Expense.CATEGORIES) := by
  refine ⟨?_, ?_, ?_, ?_, ?_⟩
  · rintro ⟨hall, hnd⟩ hid hcat hfresh
    have hadd : (Budget.add s e).1.expenses = s.expenses ++ [e] := rfl
    rw [hadd]
    constructor
    · intro x hx
      rcases List.mem_append.mp hx with hx | hx
      · exact hall x hx
      · rcases List.mem_singleton.mp hx with rfl
        exact ⟨hid, hcat⟩
    · rw [List.map_append]
      simp only [List.map_cons, List.map_nil]
      rw [List.nodup_append]
      refine ⟨hnd, List.nodup_singleton e.id, ?_⟩
      intro a ha hb
      rcases List.mem_singleton.mp hb with rfl
      exact hfresh ha
  · rintro ⟨hall, hnd⟩
    rw [update_state_expenses]
    constructor
    · exact updateList_mem_prop expense_id k s.expenses _
        (fun x hx => ⟨(applyFields_id_eq k x).symm ▸ hx.1,
          applyFields_category_mem k x hx.2⟩) hall
    · rw [updateList_map_id]
      exact hnd
  · rintro ⟨hall, hnd⟩
    rw [delete_state_expenses]
    constructor
    · intro x hx
      exact hall x (List.mem_of_mem_filter hx)
    · exact List.Nodup.sublist
        (List.Sublist.map (fun e => e.id) (List.filter_sublist s.expenses)) hnd
  · intro hids hnd
    have hload : (Budget.load fresh today ⟨[], some rows⟩).expenses =
        Budget.loadExpenses fresh today 0 rows := rfl
    rw [hload]
    constructor
    · intro x hx
      obtain ⟨j, r, hr, rfl⟩ := loadExpenses_mem fresh today rows 0 x hx
      exact ⟨from_dict_id (fresh j) today r (hids r hr) ▸ hids r hr,
        init_category_mem r.amount r.category r.description
          (some r.date) (some r.id) (fresh j) today⟩
    · rw [loadExpenses_map_id fresh today rows hids 0]
      exact hnd
  · intro amount category description ds fr td hfr
    refine ⟨?_, init_category_mem amount category description ds none fr td⟩
    simp [Expense.init, hfr]

/-- Witness: the invariant is preserved when the demo ledger gains a
fresh record, is updated, is filtered by a delete, and is loaded from
its own persisted rows. -/
theorem operations_preserve_ledger_invariant_witness :
    LedgerInv ((Budget.add ⟨[foodExpense, busExpense], none⟩
      groceryExpense).1.expenses) ∧
    LedgerInv ((Budget.update ⟨demoLedger, none⟩ "aaaa1111".data
      { amount := some 7 }).1.expenses) ∧
    LedgerInv ((Budget.delete ⟨demoLedger, none⟩ "bbbb2222".data).1.expenses) ∧
    LedgerInv ((Budget.load (fun _ => "eeee5555".data) "2026-10-12".data
      ⟨[], some (demoLedger.map Expense.to_dict)⟩).expenses) :=
  ⟨(operations_preserve_ledger_invariant ⟨[foodExpense, busExpense], none⟩
      groceryExpense [] {} (fun _ => []) [] []).1
      (by decide) (by decide) (by decide) (by decide),
   (operations_preserve_ledger_invariant ⟨demoLedger, none⟩ foodExpense
      "aaaa1111".data { amount := some 7 } (fun _ => []) [] []).2.1 (by decide),
   (operations_preserve_ledger_invariant ⟨demoLedger, none⟩ foodExpense
      "bbbb2222".data {} (fun _ => []) [] []).2.2.1 (by decide),
   (operations_preserve_ledger_invariant ⟨demoLedger, none⟩ foodExpense
      [] {} (fun _ => "eeee5555".data) "2026-10-12".data
      (demoLedger.map Expense.to_dict)).2.2.2.1 (by decide) (by decide)⟩

/-! ### C1: persisting and reloading reconstructs the record set -/

theorem from_dict_to_dict_roundtrip (fr td : Str) (e : Expense)
    (hid : e.id ≠ []) (hcat : e.category ∈ Expense.CATEGORIES)
    (hdesc : strip e.description = e.description) (hdate : e.date ≠ []) :
    Expense.from_dict fr td (Expense.to_dict e) = e := by
  rcases e with ⟨i, a, c, d, dt⟩
  simp only [Expense.from_dict, Expense.to_dict, Expense.init] at *
  simp [hid, hcat, hdesc, hdate]

theorem loadExpenses_map_to_dict (fresh : Nat → Str) (today : Str)
    (l : List Expense)
    (h : ∀ e ∈ l, e.id ≠ ([] : Str) ∧ e.category ∈ Expense.CATEGORIES ∧
      strip e.description = e.description ∧ e.date ≠ ([] : Str)) :
    ∀ i, Budget.loadExpenses fresh today i (l.map Expense.to_dict) = l := by
  induction l with
  | nil => intro i; rfl
  | cons e rest ih =>
      intro i
      obtain ⟨h1, h2, h3, h4⟩ := h e (List.mem_cons_self e rest)
      simp only [List.map_cons, Budget.loadExpenses]
      rw [from_dict_to_dict_roundtrip (fresh i) today e h1 h2 h3 h4,
        ih (fun x hx => h x (List.mem_cons_of_mem e hx)) (i + 1)]

/-- C1 (amended: the records must additionally carry non-empty dates
and already-stripped descriptions, which the counterexample shows the
§3 invariant alone does not guarantee): `_save` followed by `_load`
into a fresh budget reconstructs the exact record list — every
reloaded expense keeps its id, amount, category, description and
date. -/
theorem save_then_load_roundtrip (l : List Expense)
    (f : Option (List Expense.Row)) (fresh : Nat → Str) (today : Str)
    (hinv : LedgerInv l)
    (hdesc : ∀ e ∈ l, strip e.description = e.description)
    (hdate : ∀ e ∈ l, e.date ≠ ([] : Str)) :
    (Budget.load fresh today ⟨[], (Budget.save ⟨l, f⟩).file⟩).expenses = l := by
  have hfile : (Budget.save ⟨l, f⟩).file = some (l.map Expense.to_dict) := rfl
  rw [hfile]
  have hload : (Budget.load fresh today
      ⟨[], some (l.map Expense.to_dict)⟩).expenses =
      Budget.loadExpenses fresh today 0 (l.map Expense.to_dict) := rfl
  rw [hload]
  exact loadExpenses_map_to_dict fresh today l
    (fun e he => ⟨(hinv.1 e he).1, (hinv.1 e he).2, hdesc e he, hdate e he⟩) 0

/-- Witness: the demo ledger satisfies all the hypotheses and survives
the save/load round trip unchanged. -/
theorem save_then_load_roundtrip_witness :
    (Budget.load (fun _ => "eeee5555".data) "2026-10-12".data
      ⟨[], (Budget.save ⟨demoLedger, none⟩).file⟩).expenses = demoLedger :=
  save_then_load_roundtrip demoLedger none (fun _ => "eeee5555".data)
    "2026-10-12".data (by decide) (by decide) (by decide)

/-- Counterexample to C1 as stated: `untrimmedExpense` satisfies the
§3 stored-expense invariant, yet reloading replaces its empty date
with today's date and strips its description, so the reloaded set is
not equivalent. -/
theorem save_then_load_roundtrip_counterexample :
    LedgerInv [untrimmedExpense] ∧
    ((Budget.load (fun _ => "eeee5555".data) "2026-10-12".data
        ⟨[], (Budget.save ⟨[untrimmedExpense], none⟩).file⟩).expenses.map
      (fun e => (e.description, e.date)) ≠
        [untrimmedExpense].map (fun e => (e.description, e.date))) := by
  constructor
  · decide
  · decide

/-! ### C5: summary percentages -/

theorem addToTotals_sum (t : List (Str × Rat)) (cat : Str) (amt : Rat) :
    ((Analytics.addToTotals t cat amt).map Prod.snd).sum =
      (t.map Prod.snd).sum + amt := by
  induction t with
  | nil => simp [Analytics.addToTotals]
  | cons p rest ih =>
      rcases p with ⟨c, a⟩
      by_cases hc : (c == cat) = true
      · simp only [Analytics.addToTotals, hc, if_true, List.map_cons,
          List.sum_cons]
        ring
      · simp only [Analytics.addToTotals, hc, Bool.false_eq_true, if_false,
          List.map_cons, List.sum_cons, ih]
        ring

theorem by_category_sum_aux (es : List Expense) (t : List (Str × Rat)) :
    (((es.foldl (fun t e => Analytics.addToTotals t e.category e.amount)
        t)).map Prod.snd).sum =
      (t.map Prod.snd).sum + (es.map (fun e => e.amount)).sum := by
  induction es generalizing t with
  | nil => simp
  | cons e rest ih =>
      simp only [List.foldl_cons, List.map_cons, List.sum_cons]
      rw [ih, addToTotals_sum]
      ring

theorem by_category_sum (es : List Expense) :
    ((Analytics.by_category es).map Prod.snd).sum =
      (es.map (fun e => e.amount)).sum := by
  have h := by_category_sum_aux es []
  simpa [Analytics.by_category] using h

theorem insertDesc_perm (x : Str × Rat) (l : List (Str × Rat)) :
    List.Perm (Analytics.insertDesc x l) (x :: l) := by
  induction l with
  | nil => exact List.Perm.refl [x]
  | cons y ys ih =>
      by_cases h : y.2 < x.2
      · simp only [Analytics.insertDesc, h, if_true]
        exact List.Perm.refl _
      · simp only [Analytics.insertDesc, h, if_false]
        exact List.Perm.trans (List.Perm.cons y ih) (List.Perm.swap x y ys)

theorem sortDesc_perm (l : List (Str × Rat)) :
    List.Perm (Analytics.sortDesc l) l := by
  induction l with
  | nil => exact List.Perm.refl []
  | cons x xs ih =>
      exact List.Perm.trans (insertDesc_perm x (Analytics.sortDesc xs))
        (List.Perm.cons x ih)

theorem sortDesc_snd_sum (l : List (Str × Rat)) :
    ((Analytics.sortDesc l).map Prod.snd).sum = (l.map Prod.snd).sum :=
  List.Perm.sum_eq (List.Perm.map Prod.snd (sortDesc_perm l))

theorem round1_abs_le (x : Rat) : |Analytics.round1 x - x| ≤ 1 / 20 := by
  have h := abs_sub_round (x * 10)
  have heq : Analytics.round1 x - x = -((x * 10 - (round (x * 10) : Int)) / 10) := by
    rw [Analytics.round1]
    ring
  rw [heq, abs_neg, abs_div]
  have h10 : |(10 : Rat)| = 10 := by norm_num
  rw [h10]
  linarith

theorem sum_round1_close (total : Rat) (l : List (Str × Rat)) :
    |((l.map (fun p => Analytics.round1 (p.2 / total * 100))).sum) -
        ((l.map (fun p => p.2 / total * 100)).sum)| ≤
      (l.length : Rat) * (1 / 20) := by
  induction l with
  | nil => simp
  | cons p rest ih =>
      simp only [List.map_cons, List.sum_cons, List.length_cons]
      have h1 := round1_abs_le (p.2 / total * 100)
      have key : Analytics.round1 (p.2 / total * 100) +
            (rest.map (fun p => Analytics.round1 (p.2 / total * 100))).sum -
            (p.2 / total * 100 + (rest.map (fun p => p.2 / total * 100)).sum) =
          (Analytics.round1 (p.2 / total * 100) - p.2 / total * 100) +
            ((rest.map (fun p => Analytics.round1 (p.2 / total * 100))).sum -
              (rest.map (fun p => p.2 / total * 100)).sum) := by ring
      rw [key]
      have habs := abs_add
        (Analytics.round1 (p.2 / total * 100) - p.2 / total * 100)
        ((rest.map (fun p => Analytics.round1 (p.2 / total * 100))).sum -
          (rest.map (fun p => p.2 / total * 100)).sum)
      have hc : ((rest.length + 1 : Nat) : Rat) = (rest.length : Rat) + 1 := by
        push_cast
        ring
      rw [hc]
      calc |(Analytics.round1 (p.2 / total * 100) - p.2 / total * 100) +
            ((rest.map (fun p => Analytics.round1 (p.2 / total * 100))).sum -
              (rest.map (fun p => p.2 / total * 100)).sum)| ≤
          |Analytics.round1 (p.2 / total * 100) - p.2 / total * 100| +
            |(rest.map (fun p => Analytics.round1 (p.2 / total * 100))).sum -
              (rest.map (fun p => p.2 / total * 100)).sum| := habs
        _ ≤ 1 / 20 + (rest.length : Rat) * (1 / 20) := add_le_add h1 ih
        _ = ((rest.length : Rat) + 1) * (1 / 20) := by ring

theorem sum_div_total (total : Rat) (l : List (Str × Rat)) :
    (l.map (fun p => p.2 / total * 100)).sum =
      (l.map Prod.snd).sum / total * 100 := by
  induction l with
  | nil => simp
  | cons p rest ih =>
      simp only [List.map_cons, List.sum_cons, ih]
      ring

/-- C5: every breakdown entry's percent is `amount/total*100` rounded
to one decimal when the total is non-zero and literally `0` when the
total is zero (the guard avoids any division by zero), and whenever
the total is positive the rounded percentages sum to 100 up to the
accumulated rounding error (at most half a tenth per category). -/
theorem summary_percentages (expenses : List Expense) (month : Option Str) :
    (∀ b ∈ (Analytics.summary expenses month).breakdown,
        b.percent =
          if (Analytics.summary expenses month).total ≠ 0 then
            Analytics.round1
              (b.amount / (Analytics.summary expenses month).total * 100)
          else 0) ∧
    (0 < (Analytics.summary expenses month).total →
        |(((Analytics.summary expenses month).breakdown.map
            (fun b => b.percent)).sum) - 100| ≤
          ((Analytics.summary expenses month).breakdown.length : Rat) *
            (1 / 20)) ∧
    ((Analytics.summary expenses month).total = 0 →
        ∀ b ∈ (Analytics.summary expenses month).breakdown, b.percent = 0) := by
  have hbreak : (Analytics.summary expenses month).breakdown =
      (Analytics.sortDesc (Analytics.by_category
        (Budget.read_allList expenses none month))).map (fun p =>
          { category := p.1, amount := p.2,
            percent := if (Analytics.summary expenses month).total ≠ 0 then
                Analytics.round1 (p.2 /
                  (Analytics.summary expenses month).total * 100)
              else 0 : Analytics.BreakdownEntry }) := rfl
  have htot : (Analytics.summary expenses month).total =
      ((Budget.read_allList expenses none month).map
        (fun e => e.amount)).sum := rfl
  refine ⟨?_, ?_, ?_⟩
  · intro b hb
    rw [hbreak] at hb
    obtain ⟨p, _, rfl⟩ := List.mem_map.mp hb
    rfl
  · intro hpos
    have hne : (Analytics.summary expenses month).total ≠ 0 := ne_of_gt hpos
    have hmap : (Analytics.summary expenses month).breakdown.map
        (fun b => b.percent) =
        (Analytics.sortDesc (Analytics.by_category
          (Budget.read_allList expenses none month))).map (fun p =>
            Analytics.round1 (p.2 /
              (Analytics.summary expenses month).total * 100)) := by
      rw [hbreak, List.map_map]
      refine List.map_congr_left (fun p _ => ?_)
      simp [hne]
    have hlen : (Analytics.summary expenses month).breakdown.length =
        (Analytics.sortDesc (Analytics.by_category
          (Budget.read_allList expenses none month))).length := by
      rw [hbreak, List.length_map]
    have hexact : ((Analytics.sortDesc (Analytics.by_category
          (Budget.read_allList expenses none month))).map (fun p =>
            p.2 / (Analytics.summary expenses month).total * 100)).sum
        = 100 := by
      rw [sum_div_total, sortDesc_snd_sum, by_category_sum, ← htot,
        div_self hne]
      ring
    rw [hmap, hlen]
    have hclose := sum_round1_close (Analytics.summary expenses month).total
      (Analytics.sortDesc (Analytics.by_category
        (Budget.read_allList expenses none month)))
    rw [hexact] at hclose
    exact hclose
  · intro hzero b hb
    rw [hbreak] at hb
    obtain ⟨p, _, rfl⟩ := List.mem_map.mp hb
    simp [hzero]

/-- Witness: on the three-record demo ledger the total is 350 (> 0)
and the rounded percentages (85.7 and 14.3) sum to 100 within the
bound. -/
theorem summary_percentages_witness :
    |(((Analytics.summary demoLedger none).breakdown.map
        (fun b => b.percent)).sum) - 100| ≤
      ((Analytics.summary demoLedger none).breakdown.length : Rat) *
        (1 / 20) :=
  (summary_percentages demoLedger none).2.1 (by
    norm_num [Analytics.summary, Budget.read_allList, demoLedger,
      foodExpense, busExpense, groceryExpense])

end BudgetTracker
